import Mathlib

/-
Verification of the Backtest-Engine core against its specification.

Shallow embedding conventions:
* C++ `double` values are modelled as exact rationals (ℚ);
* `uint64_t` timestamps are modelled as ℕ (the claims never exercise
  64-bit wraparound);
* C++ exceptions are modelled with `Except String`;
* the per-strategy worker thread body of `BacktestEngine::runAll` is
  modelled as a pure function over the event lists, with the strategy's
  `onTick` callback abstracted as a state-transition function that
  returns the list of orders the strategy submits during the callback.
-/

namespace Backtest

/-! ### Data model (src/Core/Tick.h, src/Core/OrderManager.h) -/

/-- `Order::Side` from src/Core/OrderManager.h. -/
inductive Side where
  | BUY
  | SELL
deriving DecidableEq, Repr

/-- `OrderType` from src/Core/OrderManager.h. -/
inductive OrderType where
  | MARKET
  | LIMIT
deriving DecidableEq, Repr

/-- `struct Order` from src/Core/OrderManager.h. -/
structure Order where
  side : Side
  type : OrderType
  timestamp : ℕ
  volume : ℚ
  price : ℚ
deriving DecidableEq, Repr

/-- `struct Tick` from src/Core/Tick.h. -/
structure Tick where
  timestamp : ℕ
  price : ℚ
  volume : ℚ
deriving DecidableEq, Repr

/-- `struct QuoteTick` from src/Core/Tick.h. -/
structure QuoteTick where
  timestamp : ℕ
  bid : ℚ
  ask : ℚ
  volume : ℚ
deriving DecidableEq, Repr

/-! ### OrderManager (src/Core/OrderManager.h / .cpp) -/

/-- The mutable state of class `OrderManager`: pending LIMIT orders,
current position and cash balance. -/
structure OrderManager where
  pendingOrders : List Order
  position : ℚ
  cash : ℚ
deriving DecidableEq, Repr

/-- The constructor `OrderManager(int cash) : cash(cash)`.  Note the
parameter type in the source really is `int`, while the member is
`double`; the member `position` defaults to `0.0` and `pendingOrders`
starts empty. -/
def OrderManager.create (cash : ℤ) : OrderManager :=
  { pendingOrders := [], position := 0, cash := (cash : ℚ) }

/-- `OrderManager::execute` (src/Core/OrderManager.cpp lines 98-109):
BUY increases position by `volume` and decreases cash by
`volume * price`; SELL does the inverse. -/
def OrderManager.execute (s : OrderManager) (o : Order) : OrderManager :=
  if o.side = Side.BUY then
    { s with position := s.position + o.volume, cash := s.cash - o.volume * o.price }
  else
    { s with position := s.position - o.volume, cash := s.cash + o.volume * o.price }

/-- `OrderManager::submit` (src/Core/OrderManager.cpp lines 9-17):
MARKET orders execute immediately, LIMIT orders are appended to the
pending queue. -/
def OrderManager.submit (s : OrderManager) (o : Order) : OrderManager :=
  if o.type = OrderType.MARKET then
    s.execute o
  else
    { s with pendingOrders := s.pendingOrders ++ [o] }

/-- `OrderManager::handleTick(const Tick&)` (src/Core/OrderManager.cpp
lines 28-51): one pass over the pending orders; a BUY fills when
`tick.price <= order.price`, a SELL when `tick.price >= order.price`;
non-filling orders are kept in arrival order. -/
def OrderManager.handleTick (s : OrderManager) (tick : Tick) : OrderManager :=
  let r := s.pendingOrders.foldl
    (fun (acc : OrderManager × List Order) o =>
      if o.side = Side.BUY ∧ tick.price ≤ o.price then
        (acc.1.execute o, acc.2)
      else if o.side = Side.SELL ∧ o.price ≤ tick.price then
        (acc.1.execute o, acc.2)
      else
        (acc.1, acc.2 ++ [o]))
    (s, [])
  { r.1 with pendingOrders := r.2 }

/-- `OrderManager::handleTick(const QuoteTick&)`
(src/Core/OrderManager.cpp lines 62-86): a BUY fills when
`order.price >= quote.ask`, a SELL when `order.price <= quote.bid`;
non-filling orders are kept in arrival order. -/
def OrderManager.handleQuote (s : OrderManager) (quote : QuoteTick) : OrderManager :=
  let r := s.pendingOrders.foldl
    (fun (acc : OrderManager × List Order) o =>
      if o.side = Side.BUY ∧ quote.ask ≤ o.price then
        (acc.1.execute o, acc.2)
      else if o.side = Side.SELL ∧ o.price ≤ quote.bid then
        (acc.1.execute o, acc.2)
      else
        (acc.1, acc.2 ++ [o]))
    (s, [])
  { r.1 with pendingOrders := r.2 }

/-- `OrderManager::getPnL` (src/Core/OrderManager.cpp lines 124-126):
`cash + position * lastPrice`. -/
def OrderManager.getPnL (s : OrderManager) (lastPrice : ℚ) : ℚ :=
  s.cash + s.position * lastPrice

/-- `OrderManager::getPosition`. -/
def OrderManager.getPosition (s : OrderManager) : ℚ :=
  s.position

/-- The side-signed notional of an order: Buy contributes
`+volume*price`, Sell contributes `-volume*price`. -/
def Order.signedNotional (o : Order) : ℚ :=
  match o.side with
  | Side.BUY => o.volume * o.price
  | Side.SELL => -(o.volume * o.price)

/-- The side-signed volume of an order: `+volume` for Buy, `-volume`
for Sell. -/
def Order.signedVolume (o : Order) : ℚ :=
  match o.side with
  | Side.BUY => o.volume
  | Side.SELL => -o.volume

/-! ### Bar and BarAggregator (src/Core/Bar.h, src/Core/BarAggregator.h) -/

/-- `struct Bar` from src/Core/Bar.h.  The C++ field `open` is called
`opn` here because `open` is a Lean keyword. -/
structure Bar where
  startTimestamp : ℕ
  endTimestamp : ℕ
  opn : ℚ
  high : ℚ
  low : ℚ
  close : ℚ
  volume : ℚ
deriving DecidableEq, Repr

/-- The state of class `BarAggregator` (src/Core/BarAggregator.h):
window size, current window start, and the optional in-progress bar. -/
structure BarAggregator where
  windowSize : ℕ
  currentWindow : ℕ
  currentBar : Option Bar
deriving DecidableEq, Repr

/-- The constructor `BarAggregator(uint64_t windowSize)`:
`currentWindow = 0`, no in-progress bar. -/
def BarAggregator.create (windowSize : ℕ) : BarAggregator :=
  { windowSize := windowSize, currentWindow := 0, currentBar := none }

/-- The bar seeded from a first tick of a window
(src/Core/BarAggregator.h lines 68-76): OHLC all equal to the tick's
price, volume equal to the tick's volume, window `[tickWindow,
tickWindow + windowSize)`. -/
def seedBar (tickWindow windowSize : ℕ) (t : Tick) : Bar :=
  { startTimestamp := tickWindow, endTimestamp := tickWindow + windowSize,
    opn := t.price, high := t.price, low := t.price, close := t.price,
    volume := t.volume }

/-- `BarAggregator::update` (src/Core/BarAggregator.h lines 55-95).
Returns the new aggregator state together with the sealed bar, if the
tick opened a new window.  `tickWindow` floors the timestamp to the
window boundary via integer division, as in the source. -/
def BarAggregator.update (s : BarAggregator) (t : Tick) : BarAggregator × Option Bar :=
  let tickWindow := t.timestamp / s.windowSize * s.windowSize
  match s.currentBar with
  | none =>
      ({ s with currentBar := some (seedBar tickWindow s.windowSize t),
                currentWindow := tickWindow }, none)
  | some b =>
      if tickWindow ≠ s.currentWindow then
        ({ s with currentBar := some (seedBar tickWindow s.windowSize t),
                  currentWindow := tickWindow }, some b)
      else
        ({ s with currentBar := some { b with
              high := max b.high t.price,
              low := min b.low t.price,
              close := t.price,
              volume := b.volume + t.volume } }, none)

/-- `BarAggregator::flush` (src/Core/BarAggregator.h lines 105-107):
returns the in-progress bar without mutating anything. -/
def BarAggregator.flush (s : BarAggregator) : Option Bar :=
  s.currentBar

/-- Runs the aggregator over a list of ticks, keeping only the final
state. -/
def BarAggregator.runTicks (windowSize : ℕ) (ticks : List Tick) : BarAggregator :=
  ticks.foldl (fun s t => (s.update t).1) (BarAggregator.create windowSize)

/-- Runs the aggregator over a list of ticks, collecting the value
returned by each `update` call in order. -/
def BarAggregator.processAll (s : BarAggregator) (ticks : List Tick) :
    BarAggregator × List (Option Bar) :=
  ticks.foldl (fun acc t =>
    let r := acc.1.update t
    (r.1, acc.2 ++ [r.2])) (s, [])

/-- Modelled from the spec (claim C3 wording): the transition rule
stated relative to the in-progress bar's start timestamp rather than
the aggregator's `currentWindow` field.  Used only to compare against
`BarAggregator.update`. -/
def BarAggregator.updateSpec (s : BarAggregator) (t : Tick) : BarAggregator × Option Bar :=
  let windowStart := t.timestamp / s.windowSize * s.windowSize
  match s.currentBar with
  | none =>
      ({ s with currentBar := some (seedBar windowStart s.windowSize t),
                currentWindow := windowStart }, none)
  | some b =>
      if windowStart ≠ b.startTimestamp then
        ({ s with currentBar := some (seedBar windowStart s.windowSize t),
                  currentWindow := windowStart }, some b)
      else
        ({ s with currentBar := some { b with
              high := max b.high t.price,
              low := min b.low t.price,
              close := t.price,
              volume := b.volume + t.volume } }, none)

/-- Well-formedness of a bar produced by an aggregator with window
size `w`: low under both open and close, high above both, and the end
timestamp one window after the start. -/
def Bar.wellFormed (w : ℕ) (b : Bar) : Prop :=
  b.low ≤ min b.opn b.close ∧ max b.opn b.close ≤ b.high ∧
    b.endTimestamp = b.startTimestamp + w

/-- Invariant of every aggregator state reachable from
`BarAggregator.create w`: the window size is `w`, the in-progress
bar's start coincides with `currentWindow`, and the in-progress bar is
well formed. -/
def BarAggregator.Inv (w : ℕ) (s : BarAggregator) : Prop :=
  s.windowSize = w
  ∧ (∀ b, s.currentBar = some b → b.startTimestamp = s.currentWindow)
  ∧ (∀ b, s.currentBar = some b → Bar.wellFormed w b)

/-! ### StatsCollector (src/Core/StatsCollector.h / .cpp) -/

/-- `StatsFunction = std::function<double()>`: a lazily evaluated
metric. -/
def StatsFunction : Type := Unit → ℚ

/-- The state of class `StatsCollector`: initial PnL, the PnL series,
the derived returns series, and the metric registry.  The C++
`std::unordered_map` registry is modelled as an association list; its
iteration order is unspecified in C++, and no claim depends on it. -/
structure StatsCollector where
  initialPnL : ℚ
  pnlSeries : List ℚ
  returnsSeries : List ℚ
  statsFunction : List (String × StatsFunction)

/-- The constructor `StatsCollector() : initialPnL(0.0)`. -/
def StatsCollector.create : StatsCollector :=
  { initialPnL := 0, pnlSeries := [], returnsSeries := [], statsFunction := [] }

/-- The literal rational value of the `1e-8` epsilon used in
`recordPnL` (doubles are modelled as exact rationals). -/
def statsEps : ℚ := 1 / 100000000

/-- `StatsCollector::recordPnL` (src/Core/StatsCollector.cpp lines
63-79): the first value initialises `initialPnL`; every later value
appends `(pnl - prev) / (|prev| + 1e-8)` to the returns series, with
`prev` the last element of the PnL series; the value itself is always
appended to the PnL series. -/
def StatsCollector.recordPnL (s : StatsCollector) (pnl : ℚ) : StatsCollector :=
  match s.pnlSeries.getLast? with
  | none =>
      { s with initialPnL := pnl, pnlSeries := s.pnlSeries ++ [pnl] }
  | some prev =>
      { s with
        returnsSeries := s.returnsSeries ++ [(pnl - prev) / (|prev| + statsEps)],
        pnlSeries := s.pnlSeries ++ [pnl] }

/-- `StatsCollector::addStat` (src/Core/StatsCollector.cpp lines
90-93): registration is first-write-wins — an existing name is left
untouched. -/
def StatsCollector.addStat (s : StatsCollector) (name : String) (f : StatsFunction) :
    StatsCollector :=
  if (s.statsFunction.lookup name).isSome then s
  else { s with statsFunction := s.statsFunction ++ [(name, f)] }

/-- `StatsCollector::computeStats` (src/Core/StatsCollector.cpp lines
104-116): with fewer than 2 recorded PnL values the result is empty;
otherwise every registered metric function is invoked once and the
name-value pairs are returned. -/
def StatsCollector.computeStats (s : StatsCollector) : List (String × ℚ) :=
  if s.pnlSeries.length < 2 then []
  else s.statsFunction.map (fun p => (p.1, p.2 ()))

/-- The returns appended by a sequence of `recordPnL` calls, given the
last element of the PnL series so far (`none` when the series is still
empty): each recorded value `v` after a previous value `prev`
contributes `(v - prev) / (|prev| + 1e-8)`. -/
def returnsFrom : Option ℚ → List ℚ → List ℚ
  | _, [] => []
  | none, v :: vs => returnsFrom (some v) vs
  | some prev, v :: vs =>
      (v - prev) / (|prev| + statsEps) :: returnsFrom (some v) vs

/-- A concrete collector with two recorded values and one registered
metric, used to witness the `computeStats` claim. -/
def exampleCollector : StatsCollector :=
  { initialPnL := 1, pnlSeries := [1, 2], returnsSeries := [1 / (1 + statsEps)],
    statsFunction := [("X", fun _ => 5)] }

/-! ### StrategyContext and the runAll worker (src/Core/BacktestEngine.cpp) -/

/-- C++ `double` to `int` conversion: truncation toward zero. -/
def doubleToInt (q : ℚ) : ℤ :=
  if 0 ≤ q then ⌊q⌋ else ⌈q⌉

/-- The ledger allocated by
`StrategyContext::StrategyContext(..., const double initialCash)`
(src/Core/BacktestEngine.cpp lines 10-14): the member initialiser
`orderManager(initialCash)` passes the `double` to the
`OrderManager(int cash)` constructor, so the value is narrowed to
`int` (truncated toward zero) before seeding the ledger. -/
def StrategyContext.makeOrderManager (initialCash : ℚ) : OrderManager :=
  OrderManager.create (doubleToInt initialCash)

/-- State threaded through one strategy's worker loop in
`BacktestEngine::runAll`: the strategy's own state, its ledger, and
the PnL values recorded into its `StatsCollector` so far. -/
structure WorkerState (σ : Type) where
  strat : σ
  om : OrderManager
  recorded : List ℚ

/-- One iteration of the quote loop of `BacktestEngine::runAll`
(src/Core/BacktestEngine.cpp lines 98-107): the strategy's `onTick`
runs first (submitting its orders through the ledger), then the
ledger matches pending orders against the quote, then the PnL at the
mid-price `(bid + ask) / 2` is recorded. -/
def quoteStep {σ : Type} (onTick : σ → QuoteTick → σ × List Order)
    (ws : WorkerState σ) (q : QuoteTick) : WorkerState σ :=
  let r := onTick ws.strat q
  let om1 := r.2.foldl OrderManager.submit ws.om
  let om2 := om1.handleQuote q
  { strat := r.1, om := om2,
    recorded := ws.recorded ++ [om2.getPnL ((q.bid + q.ask) / 2)] }

/-- One iteration of the trade loop of `BacktestEngine::runAll`
(src/Core/BacktestEngine.cpp lines 112-121): like `quoteStep`, but the
PnL is recorded at the trade tick's price. -/
def tradeStep {σ : Type} (onTick : σ → Tick → σ × List Order)
    (ws : WorkerState σ) (t : Tick) : WorkerState σ :=
  let r := onTick ws.strat t
  let om1 := r.2.foldl OrderManager.submit ws.om
  let om2 := om1.handleTick t
  { strat := r.1, om := om2,
    recorded := ws.recorded ++ [om2.getPnL t.price] }

/-- The control flow of one strategy's worker in
`BacktestEngine::runAll` (src/Core/BacktestEngine.cpp lines 90-124),
reduced to what it records.  A quote-based strategy (`dynamic_cast`
succeeds) iterates the quote series only when it is non-empty — an
empty quote series simply skips the loop.  A trade-based strategy
iterates the trade series when non-empty and otherwise throws
`std::runtime_error("No data available for backtest.")`, modelled as
`Except.error`; since the worker runs in a `std::thread`, the uncaught
exception terminates the whole process. -/
def runWorker {σ : Type} (isQuoteStrategy : Bool)
    (onQuote : σ → QuoteTick → σ × List Order)
    (onTrade : σ → Tick → σ × List Order)
    (s0 : σ) (om0 : OrderManager)
    (data : List Tick) (quoteData : List QuoteTick) :
    Except String (List ℚ) :=
  let ws0 : WorkerState σ := { strat := s0, om := om0, recorded := [] }
  if isQuoteStrategy then
    if quoteData.isEmpty then
      Except.ok ws0.recorded
    else
      Except.ok ((quoteData.foldl (quoteStep onQuote) ws0).recorded)
  else
    if data.isEmpty then
      Except.error "No data available for backtest."
    else
      Except.ok ((data.foldl (tradeStep onTrade) ws0).recorded)

/-- The valuation series the quote loop is specified to record: after
each quote, the post-match ledger valuation at the quote's mid-price
`cash + position * (bid + ask) / 2`. -/
def quoteValuations {σ : Type} (onTick : σ → QuoteTick → σ × List Order) :
    σ → OrderManager → List QuoteTick → List ℚ
  | _, _, [] => []
  | s, om, q :: qs =>
      let r := onTick s q
      let om2 := (r.2.foldl OrderManager.submit om).handleQuote q
      (om2.cash + om2.position * ((q.bid + q.ask) / 2))
        :: quoteValuations onTick r.1 om2 qs

/-- The valuation series the trade loop is specified to record: after
each tick, the post-match ledger valuation at the tick's price. -/
def tradeValuations {σ : Type} (onTick : σ → Tick → σ × List Order) :
    σ → OrderManager → List Tick → List ℚ
  | _, _, [] => []
  | s, om, t :: ts =>
      let r := onTick s t
      let om2 := (r.2.foldl OrderManager.submit om).handleTick t
      (om2.cash + om2.position * t.price)
        :: tradeValuations onTick r.1 om2 ts

/-- The fill condition of the quote match step, as the specification
states it: a Buy Limit fills when `order.price ≥ quote.ask`, a Sell
Limit fills when `order.price ≤ quote.bid`. -/
def quoteFillCond (q : QuoteTick) (o : Order) : Bool :=
  match o.side with
  | Side.BUY => decide (q.ask ≤ o.price)
  | Side.SELL => decide (o.price ≤ q.bid)

/-! ### Helper lemmas about `execute` -/

theorem OrderManager.execute_cash (s : OrderManager) (o : Order) :
    (s.execute o).cash = s.cash - o.signedNotional := by
  cases h : o.side <;>
    simp [OrderManager.execute, Order.signedNotional, h] <;> ring

theorem OrderManager.execute_position (s : OrderManager) (o : Order) :
    (s.execute o).position = s.position + o.signedVolume := by
  cases h : o.side <;>
    simp [OrderManager.execute, Order.signedVolume, h] <;> ring

theorem OrderManager.execute_pending (s : OrderManager) (o : Order) :
    (s.execute o).pendingOrders = s.pendingOrders := by
  cases h : o.side <;> simp [OrderManager.execute, h]

theorem OrderManager.foldl_execute_cash (orders : List Order) :
    ∀ s : OrderManager,
      (orders.foldl OrderManager.execute s).cash
        = s.cash - (orders.map Order.signedNotional).sum := by
  induction orders with
  | nil => intro s; simp
  | cons o rest ih =>
      intro s
      simp only [List.foldl_cons, List.map_cons, List.sum_cons]
      rw [ih, OrderManager.execute_cash]
      ring

theorem OrderManager.foldl_execute_position (orders : List Order) :
    ∀ s : OrderManager,
      (orders.foldl OrderManager.execute s).position
        = s.position + (orders.map Order.signedVolume).sum := by
  induction orders with
  | nil => intro s; simp
  | cons o rest ih =>
      intro s
      simp only [List.foldl_cons, List.map_cons, List.sum_cons]
      rw [ih, OrderManager.execute_position]
      ring

/-! ### Claim C1: money conservation -/

/-- C1: for every initial cash `c` and every finite sequence of orders
routed through `execute`, the final cash satisfies
`finalCash - c = -Σ side-signed volume*price` (Buy contributes
`+volume*price`, Sell `-volume*price`), and the position equals the
sum of side-signed volumes.  In particular, starting from cash 10000,
executing Buy Market 1@100 then Sell Market 1@110 leaves position 0
and `getPnL p = 10010` for every reference price `p`. -/
theorem claim_C1_money_conservation :
    (∀ (c : ℚ) (orders : List Order),
      (orders.foldl OrderManager.execute
          { pendingOrders := [], position := 0, cash := c }).cash - c
        = -(orders.map Order.signedNotional).sum
      ∧ (orders.foldl OrderManager.execute
          { pendingOrders := [], position := 0, cash := c }).position
        = (orders.map Order.signedVolume).sum)
    ∧ (∀ p : ℚ,
      ((({ pendingOrders := [], position := 0, cash := 10000 } : OrderManager).submit
          { side := Side.BUY, type := OrderType.MARKET,
            timestamp := 0, volume := 1, price := 100 }).submit
          { side := Side.SELL, type := OrderType.MARKET,
            timestamp := 1, volume := 1, price := 110 }).getPosition = 0
      ∧ ((({ pendingOrders := [], position := 0, cash := 10000 } : OrderManager).submit
          { side := Side.BUY, type := OrderType.MARKET,
            timestamp := 0, volume := 1, price := 100 }).submit
          { side := Side.SELL, type := OrderType.MARKET,
            timestamp := 1, volume := 1, price := 110 }).getPnL p = 10010) := by
  constructor
  · intro c orders
    constructor
    · rw [OrderManager.foldl_execute_cash]; ring
    · rw [OrderManager.foldl_execute_position]; ring
  · intro p
    constructor <;>
      · simp [OrderManager.submit, OrderManager.execute,
          OrderManager.getPnL, OrderManager.getPosition]
        try norm_num

/-! ### Helper lemmas about `StatsCollector` -/

theorem lookup_append {β : Type} (l₁ l₂ : List (String × β)) (n : String) :
    (l₁ ++ l₂).lookup n = ((l₁.lookup n).or (l₂.lookup n)) := by
  induction l₁ with
  | nil => simp [List.lookup]
  | cons p l ih =>
      rcases p with ⟨k, v⟩
      by_cases h : n == k
      · simp [List.lookup, h]
      · simp only [List.cons_append, List.lookup, h]
        exact ih

theorem recordPnL_foldl (vs : List ℚ) :
    ∀ s : StatsCollector,
      (vs.foldl StatsCollector.recordPnL s).pnlSeries = s.pnlSeries ++ vs
      ∧ (vs.foldl StatsCollector.recordPnL s).returnsSeries
          = s.returnsSeries ++ returnsFrom s.pnlSeries.getLast? vs
      ∧ (vs.foldl StatsCollector.recordPnL s).statsFunction = s.statsFunction := by
  induction vs with
  | nil => intro s; simp [returnsFrom]
  | cons v rest ih =>
      intro s
      simp only [List.foldl_cons]
      rcases h : s.pnlSeries.getLast? with _ | prev
      · have hnil : s.pnlSeries = [] := List.getLast?_eq_none_iff.mp h
        have hrec : s.recordPnL v
            = { s with initialPnL := v, pnlSeries := s.pnlSeries ++ [v] } := by
          simp [StatsCollector.recordPnL, h]
        rw [hrec]
        rcases ih { s with initialPnL := v, pnlSeries := s.pnlSeries ++ [v] }
          with ⟨h1, h2, h3⟩
        refine ⟨?_, ?_, ?_⟩
        · rw [h1]; simp [hnil]
        · rw [h2]; simp [hnil, returnsFrom]
        · exact h3
      · have hrec : s.recordPnL v
            = { s with
                returnsSeries := s.returnsSeries ++ [(v - prev) / (|prev| + statsEps)],
                pnlSeries := s.pnlSeries ++ [v] } := by
          simp [StatsCollector.recordPnL, h]
        rw [hrec]
        rcases ih { s with
            returnsSeries := s.returnsSeries ++ [(v - prev) / (|prev| + statsEps)],
            pnlSeries := s.pnlSeries ++ [v] } with ⟨h1, h2, h3⟩
        refine ⟨?_, ?_, ?_⟩
        · rw [h1]; simp
        · rw [h2]; simp [returnsFrom, h]
        · exact h3

theorem returnsFrom_length_some (vs : List ℚ) :
    ∀ p : ℚ, (returnsFrom (some p) vs).length = vs.length := by
  induction vs with
  | nil => intro p; simp [returnsFrom]
  | cons v rest ih => intro p; simp [returnsFrom, ih]

theorem returnsFrom_getD_some (vs : List ℚ) :
    ∀ (p : ℚ) (i : ℕ), i < vs.length →
      (returnsFrom (some p) vs).getD i 0
        = ((p :: vs).getD (i + 1) 0 - (p :: vs).getD i 0)
            / (|(p :: vs).getD i 0| + statsEps) := by
  induction vs with
  | nil => intro p i hi; simp at hi
  | cons v rest ih =>
      intro p i hi
      cases i with
      | zero => simp [returnsFrom]
      | succ j =>
          have hj : j < rest.length := by
            simpa using Nat.lt_of_succ_lt_succ hi
          have := ih v j hj
          simpa [returnsFrom] using this

/-! ### Claim C5: statistics series invariant -/

/-- C5: after any finite sequence of `recordPnL` calls on a fresh
collector, `len(returnsSeries) = max(0, len(pnlSeries) - 1)`, and
every entry of the returns series is
`(pnlSeries[i+1] - pnlSeries[i]) / (|pnlSeries[i]| + 1e-8)`. -/
theorem claim_C5_return_series_invariant
    (reg : List (String × StatsFunction)) (vs : List ℚ) :
    ((vs.foldl StatsCollector.recordPnL
        { initialPnL := 0, pnlSeries := [], returnsSeries := [],
          statsFunction := reg }).returnsSeries.length : ℤ)
      = max 0 (((vs.foldl StatsCollector.recordPnL
          { initialPnL := 0, pnlSeries := [], returnsSeries := [],
            statsFunction := reg }).pnlSeries.length : ℤ) - 1)
    ∧ ∀ i : ℕ,
        i < (vs.foldl StatsCollector.recordPnL
          { initialPnL := 0, pnlSeries := [], returnsSeries := [],
            statsFunction := reg }).returnsSeries.length →
        (vs.foldl StatsCollector.recordPnL
          { initialPnL := 0, pnlSeries := [], returnsSeries := [],
            statsFunction := reg }).returnsSeries.getD i 0
          = ((vs.foldl StatsCollector.recordPnL
              { initialPnL := 0, pnlSeries := [], returnsSeries := [],
                statsFunction := reg }).pnlSeries.getD (i + 1) 0
            - (vs.foldl StatsCollector.recordPnL
              { initialPnL := 0, pnlSeries := [], returnsSeries := [],
                statsFunction := reg }).pnlSeries.getD i 0)
            / (|(vs.foldl StatsCollector.recordPnL
              { initialPnL := 0, pnlSeries := [], returnsSeries := [],
                statsFunction := reg }).pnlSeries.getD i 0| + statsEps) := by
  rcases recordPnL_foldl vs
      { initialPnL := 0, pnlSeries := [], returnsSeries := [],
        statsFunction := reg } with ⟨h1, h2, _⟩
  simp only [h1, h2, List.nil_append, List.getLast?_nil]
  cases vs with
  | nil => simp [returnsFrom]
  | cons v rest =>
      constructor
      · simp [returnsFrom, returnsFrom_length_some]
      · intro i hi
        have hi2 : i < rest.length := by
          simpa [returnsFrom, returnsFrom_length_some] using hi
        simpa [returnsFrom] using returnsFrom_getD_some rest v i hi2

/-- Witness for C5: recording 0 then 1 produces a single return equal
to `(1 - 0) / (|0| + 1e-8) = 100000000`. -/
theorem claim_C5_witness :
    0 < (([0, 1] : List ℚ).foldl StatsCollector.recordPnL
        { initialPnL := 0, pnlSeries := [], returnsSeries := [],
          statsFunction := [] }).returnsSeries.length
    ∧ (([0, 1] : List ℚ).foldl StatsCollector.recordPnL
        { initialPnL := 0, pnlSeries := [], returnsSeries := [],
          statsFunction := [] }).returnsSeries.getD 0 0 = 100000000 := by
  have h := (claim_C5_return_series_invariant [] [0, 1]).2 0
    (by simp [StatsCollector.recordPnL, returnsFrom])
  refine ⟨by simp [StatsCollector.recordPnL, returnsFrom], ?_⟩
  rw [h]
  simp [StatsCollector.recordPnL, statsEps]

/-! ### Claim C7: computeStats on insufficient data -/

/-- C7: `computeStats` with fewer than 2 recorded values returns the
empty mapping no matter what metrics are registered; with 2 or more
values it returns one entry per registered metric, each function
applied once to produce its value. -/
theorem claim_C7_computeAll (s : StatsCollector) :
    (s.pnlSeries.length < 2 → s.computeStats = [])
    ∧ (2 ≤ s.pnlSeries.length →
        s.computeStats.map Prod.fst = s.statsFunction.map Prod.fst
        ∧ s.computeStats.length = s.statsFunction.length
        ∧ ∀ nf ∈ s.statsFunction, (nf.1, nf.2 ()) ∈ s.computeStats) := by
  constructor
  · intro h
    simp [StatsCollector.computeStats, h]
  · intro h
    have h2 : ¬ s.pnlSeries.length < 2 := not_lt.mpr h
    refine ⟨?_, ?_, ?_⟩
    · simp [StatsCollector.computeStats, h2]
    · simp [StatsCollector.computeStats, h2]
    · intro nf hnf
      simp only [StatsCollector.computeStats, if_neg h2, List.mem_map]
      exact ⟨nf, hnf, rfl⟩

/-- Witness for C7: on `exampleCollector` (two recorded values, one
metric `"X"`), `computeStats` yields exactly the entry for `"X"`. -/
theorem claim_C7_witness :
    2 ≤ exampleCollector.pnlSeries.length
    ∧ exampleCollector.computeStats.map Prod.fst = ["X"]
    ∧ ("X", (5 : ℚ)) ∈ exampleCollector.computeStats := by
  have h := (claim_C7_computeAll exampleCollector).2 (by decide)
  refine ⟨by decide, h.1.trans rfl, ?_⟩
  have := h.2.2 ("X", fun _ => 5) (by simp [exampleCollector])
  exact this

/-! ### Claim C8: metric registry first-write-wins -/

/-- C8: registering a second metric function under an existing name is
a no-op — `addStat n f` then `addStat n g` equals `addStat n f`
alone. -/
theorem claim_C8_first_write_wins (s : StatsCollector) (n : String)
    (f g : StatsFunction) :
    (s.addStat n f).addStat n g = s.addStat n f := by
  by_cases h : (s.statsFunction.lookup n).isSome
  · simp [StatsCollector.addStat, h]
  · have hnone : s.statsFunction.lookup n = none :=
      Option.not_isSome_iff_eq_none.mp h
    have h1 : s.addStat n f
        = { s with statsFunction := s.statsFunction ++ [(n, f)] } := by
      simp [StatsCollector.addStat, h]
    have h2 : ((s.statsFunction ++ [(n, f)]).lookup n) = some f := by
      rw [lookup_append, hnone]
      simp [List.lookup]
    rw [h1]
    simp [StatsCollector.addStat, h2]

/-! ### Helper lemmas about `BarAggregator` -/

theorem seedBar_wellFormed (tickWindow w : ℕ) (t : Tick) :
    Bar.wellFormed w (seedBar tickWindow w t) := by
  refine ⟨?_, ?_, ?_⟩ <;> simp [seedBar, Bar.wellFormed]

theorem inv_create (w : ℕ) : BarAggregator.Inv w (BarAggregator.create w) := by
  refine ⟨rfl, ?_, ?_⟩ <;> intro b hb <;> simp [BarAggregator.create] at hb

theorem update_none {s : BarAggregator} {t : Tick} (hsb : s.currentBar = none) :
    s.update t
      = ({ s with
            currentBar := some (seedBar (t.timestamp / s.windowSize * s.windowSize)
              s.windowSize t),
            currentWindow := t.timestamp / s.windowSize * s.windowSize }, none) := by
  simp [BarAggregator.update, hsb]

theorem update_newWindow {s : BarAggregator} {t : Tick} {b : Bar}
    (hsb : s.currentBar = some b)
    (hcond : t.timestamp / s.windowSize * s.windowSize ≠ s.currentWindow) :
    s.update t
      = ({ s with
            currentBar := some (seedBar (t.timestamp / s.windowSize * s.windowSize)
              s.windowSize t),
            currentWindow := t.timestamp / s.windowSize * s.windowSize }, some b) := by
  simp [BarAggregator.update, hsb, hcond]

theorem update_sameWindow {s : BarAggregator} {t : Tick} {b : Bar}
    (hsb : s.currentBar = some b)
    (hcond : t.timestamp / s.windowSize * s.windowSize = s.currentWindow) :
    s.update t
      = ({ s with currentBar := some { b with
            high := max b.high t.price,
            low := min b.low t.price,
            close := t.price,
            volume := b.volume + t.volume } }, none) := by
  simp [BarAggregator.update, hsb, hcond]

theorem inv_update {w : ℕ} {s : BarAggregator} (h : BarAggregator.Inv w s)
    (t : Tick) : BarAggregator.Inv w (s.update t).1 := by
  rcases h with ⟨hw, halign, hwf⟩
  rcases hsb : s.currentBar with _ | b
  · rw [update_none hsb]
    refine ⟨hw, ?_, ?_⟩
    · intro b' hb'
      simp only [Option.some.injEq] at hb'
      subst hb'
      simp [seedBar]
    · intro b' hb'
      simp only [Option.some.injEq] at hb'
      subst hb'
      rw [← hw]
      exact seedBar_wellFormed _ _ _
  · by_cases hcond : t.timestamp / s.windowSize * s.windowSize ≠ s.currentWindow
    · rw [update_newWindow hsb hcond]
      refine ⟨hw, ?_, ?_⟩
      · intro b' hb'
        simp only [Option.some.injEq] at hb'
        subst hb'
        simp [seedBar]
      · intro b' hb'
        simp only [Option.some.injEq] at hb'
        subst hb'
        rw [← hw]
        exact seedBar_wellFormed _ _ _
    · rw [update_sameWindow hsb (not_ne_iff.mp hcond)]
      rcases hwf b hsb with ⟨hlow, hhigh, hend⟩
      refine ⟨hw, ?_, ?_⟩
      · intro b' hb'
        simp only [Option.some.injEq] at hb'
        subst hb'
        exact halign b hsb
      · intro b' hb'
        simp only [Option.some.injEq] at hb'
        subst hb'
        refine ⟨?_, ?_, ?_⟩
        · exact min_le_min (hlow.trans (min_le_left _ _)) le_rfl
        · exact max_le_max ((le_max_left _ _).trans hhigh) le_rfl
        · exact hend

theorem inv_foldl (w : ℕ) (ticks : List Tick) :
    ∀ s : BarAggregator, BarAggregator.Inv w s →
      BarAggregator.Inv w (ticks.foldl (fun s t => (s.update t).1) s) := by
  induction ticks with
  | nil => intro s h; exact h
  | cons t rest ih =>
      intro s h
      exact ih _ (inv_update h t)

theorem inv_runTicks (w : ℕ) (ticks : List Tick) :
    BarAggregator.Inv w (BarAggregator.runTicks w ticks) :=
  inv_foldl w ticks _ (inv_create w)

theorem update_eq_updateSpec {w : ℕ} {s : BarAggregator}
    (h : BarAggregator.Inv w s) (t : Tick) :
    s.update t = s.updateSpec t := by
  rcases h with ⟨_, halign, _⟩
  rcases hsb : s.currentBar with _ | b
  · simp [BarAggregator.update, BarAggregator.updateSpec, hsb]
  · have hstart := halign b hsb
    simp [BarAggregator.update, BarAggregator.updateSpec, hsb, hstart]

theorem update_snd_wellFormed {w : ℕ} {s : BarAggregator}
    (h : BarAggregator.Inv w s) (t : Tick) {b : Bar}
    (hb : (s.update t).2 = some b) : Bar.wellFormed w b := by
  rcases h with ⟨_, _, hwf⟩
  rcases hsb : s.currentBar with _ | b₀
  · simp [BarAggregator.update, hsb] at hb
  · by_cases hcond : t.timestamp / s.windowSize * s.windowSize ≠ s.currentWindow
    · simp [BarAggregator.update, hsb, hcond] at hb
      exact hb ▸ hwf b₀ hsb
    · simp [BarAggregator.update, hsb, hcond] at hb

/-! ### Claim C3: bar aggregator transition rule -/

/-- C3: on every aggregator state reachable from a fresh aggregator,
`update` behaves exactly as the specified transition rule
(`updateSpec`, phrased against the in-progress bar's start): a new or
different window seals the previous in-progress bar (returning it, or
nothing at the very first event) and opens a bar seeded from the
event; the same window updates high/low/close/volume and returns
nothing.  In particular, with windowSize 60000 and events at
timestamps 1000 (price 10), 59000 (price 12) and 61000 (price 9), the
first two updates return nothing, the third returns the sealed bar
`{open 10, high 12, low 10, close 12, volume v₁ + v₂}`, and a final
`flush` returns the in-progress bar seeded from the third event. -/
theorem claim_C3_aggregator_transition :
    (∀ (w : ℕ) (ticks : List Tick) (t : Tick),
      (BarAggregator.runTicks w ticks).update t
        = (BarAggregator.runTicks w ticks).updateSpec t)
    ∧ (∀ v₁ v₂ v₃ : ℚ,
      (BarAggregator.processAll (BarAggregator.create 60000)
        [{ timestamp := 1000, price := 10, volume := v₁ },
         { timestamp := 59000, price := 12, volume := v₂ },
         { timestamp := 61000, price := 9, volume := v₃ }]).2
        = [none, none,
           some { startTimestamp := 0, endTimestamp := 60000, opn := 10,
                  high := 12, low := 10, close := 12, volume := v₁ + v₂ }]
      ∧ (BarAggregator.processAll (BarAggregator.create 60000)
          [{ timestamp := 1000, price := 10, volume := v₁ },
           { timestamp := 59000, price := 12, volume := v₂ },
           { timestamp := 61000, price := 9, volume := v₃ }]).1.flush
        = some { startTimestamp := 60000, endTimestamp := 120000, opn := 9,
                 high := 9, low := 9, close := 9, volume := v₃ }) := by
  constructor
  · intro w ticks t
    exact update_eq_updateSpec (inv_runTicks w ticks) t
  · intro v₁ v₂ v₃
    have h1 : (BarAggregator.create 60000).update
          { timestamp := 1000, price := 10, volume := v₁ }
        = (⟨60000, 0, some ⟨0, 60000, 10, 10, 10, 10, v₁⟩⟩, none) := by
      simp [BarAggregator.update, BarAggregator.create, seedBar]
    have h2 : (⟨60000, 0, some ⟨0, 60000, 10, 10, 10, 10, v₁⟩⟩ : BarAggregator).update
          { timestamp := 59000, price := 12, volume := v₂ }
        = (⟨60000, 0, some ⟨0, 60000, 10, 12, 10, 12, v₁ + v₂⟩⟩, none) := by
      norm_num [BarAggregator.update]
    have h3 : (⟨60000, 0, some ⟨0, 60000, 10, 12, 10, 12, v₁ + v₂⟩⟩ : BarAggregator).update
          { timestamp := 61000, price := 9, volume := v₃ }
        = (⟨60000, 60000, some ⟨60000, 120000, 9, 9, 9, 9, v₃⟩⟩,
           some ⟨0, 60000, 10, 12, 10, 12, v₁ + v₂⟩) := by
      norm_num [BarAggregator.update, seedBar]
    refine ⟨?_, ?_⟩ <;>
      simp only [BarAggregator.processAll, List.foldl_cons, List.foldl_nil, h1, h2, h3,
        BarAggregator.flush, List.nil_append, List.append_assoc, List.singleton_append,
        List.cons_append]

/-! ### Claim C10: bar well-formedness invariant -/

/-- C10: every in-progress bar of an aggregator reachable from a fresh
aggregator — and hence every bar returned by `update` or `flush` —
satisfies `low ≤ min(open, close)`, `max(open, close) ≤ high` and
`endTimestamp = startTimestamp + windowSize`. -/
theorem claim_C10_bar_invariant (w : ℕ) (ticks : List Tick) :
    (∀ b, (BarAggregator.runTicks w ticks).currentBar = some b →
      Bar.wellFormed w b)
    ∧ (∀ (t : Tick) (b : Bar),
        ((BarAggregator.runTicks w ticks).update t).2 = some b →
      Bar.wellFormed w b)
    ∧ (∀ b, (BarAggregator.runTicks w ticks).flush = some b →
      Bar.wellFormed w b) := by
  have h := inv_runTicks w ticks
  refine ⟨h.2.2, ?_, h.2.2⟩
  intro t b hb
  exact update_snd_wellFormed h t hb

/-- Witness for C10: after one tick, `flush` returns the seeded bar,
which is well formed for window size 60000. -/
theorem claim_C10_witness :
    (BarAggregator.runTicks 60000
        [{ timestamp := 1000, price := 10, volume := 1 }]).flush
      = some { startTimestamp := 0, endTimestamp := 60000, opn := 10,
               high := 10, low := 10, close := 10, volume := 1 }
    ∧ Bar.wellFormed 60000
        { startTimestamp := 0, endTimestamp := 60000, opn := 10,
          high := 10, low := 10, close := 10, volume := 1 } := by
  constructor
  · rfl
  · exact (claim_C10_bar_invariant 60000
      [{ timestamp := 1000, price := 10, volume := 1 }]).2.2 _ rfl

/-! ### Helper lemmas about the runAll worker -/

theorem quoteStep_foldl {σ : Type} (onTick : σ → QuoteTick → σ × List Order)
    (qs : List QuoteTick) :
    ∀ (s : σ) (om : OrderManager) (r : List ℚ),
      (qs.foldl (quoteStep onTick) { strat := s, om := om, recorded := r }).recorded
        = r ++ quoteValuations onTick s om qs := by
  induction qs with
  | nil => intro s om r; simp [quoteValuations]
  | cons q rest ih =>
      intro s om r
      simp only [List.foldl_cons, quoteStep, quoteValuations]
      rw [ih]
      simp [OrderManager.getPnL]

theorem tradeStep_foldl {σ : Type} (onTick : σ → Tick → σ × List Order)
    (ts : List Tick) :
    ∀ (s : σ) (om : OrderManager) (r : List ℚ),
      (ts.foldl (tradeStep onTick) { strat := s, om := om, recorded := r }).recorded
        = r ++ tradeValuations onTick s om ts := by
  induction ts with
  | nil => intro s om r; simp [tradeValuations]
  | cons t rest ih =>
      intro s om r
      simp only [List.foldl_cons, tradeStep, tradeValuations]
      rw [ih]
      simp [OrderManager.getPnL]

/-! ### Claim C2: empty event series handling in runAll -/

/-- Counterexample for C2: a quote-based strategy whose declared event
series (the quote series) is empty does NOT fail fatally — the worker
silently skips the event loop and completes normally, returning an
empty recorded series (`Except.ok []`, whereas the claimed fatal
failure is modelled by `Except.error`).  In the source, the inner
`if (!quoteData.empty())` of `BacktestEngine::runAll` has no else
branch; only the trade-based path can reach the `throw`. -/
theorem claim_C2_counterexample :
    runWorker true (fun (s : Unit) (_ : QuoteTick) => (s, ([] : List Order)))
      (fun (s : Unit) (_ : Tick) => (s, ([] : List Order)))
      () (OrderManager.create 10000)
      [{ timestamp := 0, price := 100, volume := 1 }] []
      = Except.ok [] := by
  rfl

/-- C2 (amended): a trade-based strategy with an empty trade series
fails fatally (the worker throws, modelled as `Except.error`,
terminating the process since it is inside a `std::thread`); a
quote-based strategy with an empty quote series is silently skipped:
the worker completes normally having recorded nothing. -/
theorem claim_C2_no_data_amended {σ : Type}
    (onQuote : σ → QuoteTick → σ × List Order)
    (onTrade : σ → Tick → σ × List Order)
    (s0 : σ) (om0 : OrderManager)
    (data : List Tick) (quoteData : List QuoteTick) :
    runWorker false onQuote onTrade s0 om0 [] quoteData
      = Except.error "No data available for backtest."
    ∧ runWorker true onQuote onTrade s0 om0 data []
      = Except.ok [] := by
  constructor <;> rfl

/-! ### Claim C9: valuation reference price per event kind -/

/-- C9: the per-event valuation the runAll worker records into the
statistics engine is, for a quote-based strategy, the post-match
ledger valuation `cash + position * (bid + ask) / 2` at the quote's
mid-price, and for a trade-based strategy the valuation
`cash + position * price` at the trade's price (`quoteValuations` and
`tradeValuations` spell out those formulas event by event). -/
theorem claim_C9_recorded_valuations :
    (∀ (σ : Type) (onQuote : σ → QuoteTick → σ × List Order)
        (onTrade : σ → Tick → σ × List Order) (s0 : σ) (om0 : OrderManager)
        (data : List Tick) (quoteData : List QuoteTick),
      runWorker true onQuote onTrade s0 om0 data quoteData
        = Except.ok (quoteValuations onQuote s0 om0 quoteData))
    ∧ (∀ (σ : Type) (onQuote : σ → QuoteTick → σ × List Order)
        (onTrade : σ → Tick → σ × List Order) (s0 : σ) (om0 : OrderManager)
        (t : Tick) (ts : List Tick) (quoteData : List QuoteTick),
      runWorker false onQuote onTrade s0 om0 (t :: ts) quoteData
        = Except.ok (tradeValuations onTrade s0 om0 (t :: ts))) := by
  constructor
  · intro σ onQuote onTrade s0 om0 data quoteData
    cases quoteData with
    | nil => rfl
    | cons q qs =>
        simp only [runWorker, List.isEmpty_cons, if_true, if_false, Bool.false_eq_true]
        rw [quoteStep_foldl]
        simp
  · intro σ onQuote onTrade s0 om0 t ts quoteData
    simp only [runWorker, List.isEmpty_cons, if_true, if_false, Bool.false_eq_true]
    rw [tradeStep_foldl]
    simp

theorem handleQuote_loop (q : QuoteTick) (l : List Order) :
    ∀ (st : OrderManager) (acc : List Order),
      (l.foldl (fun (acc2 : OrderManager × List Order) o =>
          if o.side = Side.BUY ∧ q.ask ≤ o.price then (acc2.1.execute o, acc2.2)
          else if o.side = Side.SELL ∧ o.price ≤ q.bid then (acc2.1.execute o, acc2.2)
          else (acc2.1, acc2.2 ++ [o])) (st, acc))
        = ((l.filter (quoteFillCond q)).foldl OrderManager.execute st,
           acc ++ l.filter (fun o => ! quoteFillCond q o)) := by
  induction l with
  | nil => intro st acc; simp
  | cons o rest ih =>
      intro st acc
      simp only [List.foldl_cons]
      rcases hside : o.side with _ | _
      · by_cases hc : q.ask ≤ o.price
        · have hfc : quoteFillCond q o = true := by
            simp [quoteFillCond, hside, hc]
          rw [if_pos (And.intro rfl hc), ih]
          simp [List.filter_cons, hfc]
        · have h1 : ¬(Side.BUY = Side.BUY ∧ q.ask ≤ o.price) := fun hh => hc hh.2
          have h2 : ¬(Side.BUY = Side.SELL ∧ o.price ≤ q.bid) := by simp
          have hfc : quoteFillCond q o = false := by
            simp [quoteFillCond, hside, hc]
          rw [if_neg h1, if_neg h2, ih]
          simp [List.filter_cons, hfc]
      · by_cases hc : o.price ≤ q.bid
        · have h1 : ¬(Side.SELL = Side.BUY ∧ q.ask ≤ o.price) := by simp
          have hfc : quoteFillCond q o = true := by
            simp [quoteFillCond, hside, hc]
          rw [if_neg h1, if_pos (And.intro rfl hc), ih]
          simp [List.filter_cons, hfc]
        · have h1 : ¬(Side.SELL = Side.BUY ∧ q.ask ≤ o.price) := by simp
          have h2 : ¬(Side.SELL = Side.SELL ∧ o.price ≤ q.bid) := fun hh => hc hh.2
          have hfc : quoteFillCond q o = false := by
            simp [quoteFillCond, hside, hc]
          rw [if_neg h1, if_neg h2, ih]
          simp [List.filter_cons, hfc]

/-! ### Claim C4: quote matching -/

/-- C4: the quote match step fills (removes from pending and routes
through `execute`) exactly the pending orders satisfying
`quoteFillCond` — a Buy fills iff `order.price ≥ quote.ask`, a Sell
iff `order.price ≤ quote.bid` — each for its full volume, and every
other order remains pending in arrival order.  In particular a
pending Buy Limit at price 101 fills exactly when a quote with
`ask ≤ 101` arrives. -/
theorem claim_C4_quote_matching :
    (∀ (s : OrderManager) (q : QuoteTick),
      s.handleQuote q
        = { (s.pendingOrders.filter (quoteFillCond q)).foldl OrderManager.execute s with
            pendingOrders := s.pendingOrders.filter (fun o => ! quoteFillCond q o) })
    ∧ (∀ (c pos : ℚ) (ts : ℕ) (v : ℚ) (q : QuoteTick),
      (({ pendingOrders := [{ side := Side.BUY, type := OrderType.LIMIT,
                              timestamp := ts, volume := v, price := 101 }],
          position := pos, cash := c } : OrderManager).handleQuote q).pendingOrders
        = if q.ask ≤ 101 then []
          else [{ side := Side.BUY, type := OrderType.LIMIT,
                  timestamp := ts, volume := v, price := 101 }]) := by
  constructor
  · intro s q
    simp only [OrderManager.handleQuote]
    rw [handleQuote_loop]
    simp
  · intro c pos ts v q
    by_cases hq : q.ask ≤ 101
    · simp [OrderManager.handleQuote, OrderManager.execute, hq]
    · simp [OrderManager.handleQuote, hq]

/-! ### Claim C6: ledger seeding from initialCash -/

/-- C6 is contradicted by the code: `OrderManager`'s constructor takes
`int cash`, so the `double initialCash` forwarded by
`StrategyContext`'s member initialiser is truncated toward zero.  At
`initialCash = 10000.5` the freshly allocated ledger holds cash 10000,
not 10000.5, and its valuation at every reference price is 10000. -/
theorem claim_C6_cash_truncated :
    (StrategyContext.makeOrderManager (20001 / 2)).cash = 10000
    ∧ ((20001 / 2 : ℚ) ≠ 10000)
    ∧ ∀ p : ℚ, (StrategyContext.makeOrderManager (20001 / 2)).getPnL p = 10000 := by
  have hnn : (0 : ℚ) ≤ 20001 / 2 := by norm_num
  have hfloor : ⌊(20001 / 2 : ℚ)⌋ = 10000 := by
    rw [Int.floor_eq_iff] <;> norm_num
  have hcash : (StrategyContext.makeOrderManager (20001 / 2)).cash = 10000 := by
    simp [StrategyContext.makeOrderManager, doubleToInt, OrderManager.create,
      if_pos hnn, hfloor]
  refine ⟨hcash, by norm_num, ?_⟩
  intro p
  have hpos : (StrategyContext.makeOrderManager (20001 / 2)).position = 0 := by
    simp [StrategyContext.makeOrderManager, doubleToInt, OrderManager.create]
  rw [OrderManager.getPnL, hcash, hpos]
  ring

end Backtest
